import Mathlib

/-!
Formal model of the libgp Gaussian-process regression engine
(src/gp.cc together with the covariance-function base class of cov.h).

Real numbers (C++ `double`) are modelled by the rationals.  The machine
square root used inside Eigen's Cholesky factorization is an explicit
parameter `sq : Rat -> Rat` of every operation that factorizes; theorems
that need exactness of the factorization take it as a hypothesis on the
produced factor.  Raw C arrays are modelled as lists; reading entry `i`
of a list shorter than `i+1` (undefined behaviour in C++) yields 0.
-/

/-- Covariance function base class (cov.h): input dimensionality, parameter
dimensionality, the log-hyperparameter vector and the kernel evaluation,
which may depend on the current hyperparameters. -/
structure CovarianceFunction where
  input_dim : ℕ
  param_dim : ℕ
  loghyper : List ℚ
  getFn : List ℚ → List ℚ → List ℚ → ℚ

/-- Kernel evaluation `covf->get(x1, x2)` at the current hyperparameters. -/
def CovarianceFunction.get (cf : CovarianceFunction) (x1 x2 : List ℚ) : ℚ :=
  cf.getFn cf.loghyper x1 x2

/-- Modelled from the spec: the body of `CovarianceFunction::set_loghyper`
(cov.cc) is not under src, only its declaration in cov.h.  The spec says it
replaces the hyperparameter vector, fails (returns false) if the input
length does not equal `param_dim`, and never partially applies. -/
def CovarianceFunction.set_loghyper (cf : CovarianceFunction) (p : List ℚ) :
    Bool × CovarianceFunction :=
  if p.length = cf.param_dim then (true, { cf with loghyper := p }) else (false, cf)

/-- Modelled from the spec: the Pattern (Sample) class is not under src.
A sample is an input vector of `input_dim` reals and a scalar target. -/
structure Pattern where
  x : List ℚ
  y : ℚ

/-- Copying `n` entries out of a raw C array (modelled as a list), as
`Pattern::set_input` and `set_params` do.  Reading past the end of the
caller's array is undefined behaviour in C++; it yields 0 here. -/
def readArray (n : ℕ) (x : List ℚ) : List ℚ :=
  (List.range n).map (fun i => x.getD i 0)

/-- Storage of Eigen's `LLT` object: the in-place factor matrix and the
success flag (`info = true` models `m_info == Success`). -/
structure LLT where
  mat : ℕ → ℕ → ℚ
  info : Bool

/-- Step `k` of Eigen's unblocked in-place lower-triangular Cholesky:
the pivot `x = mat(k,k) - |A10|^2` must be positive, `mat(k,k)` becomes
`sq x`, and column `k` below the diagonal becomes `(A21 - A20·A10ᵀ)/sq x`.
On a non-positive pivot Eigen stops updating and records the failure;
gp.cc never inspects that flag. -/
def lltStep (sq : ℚ → ℚ) (n : ℕ) (s : LLT) (k : ℕ) : LLT :=
  if s.info = false then s
  else
    let x := s.mat k k - Finset.sum (Finset.range k) (fun p => s.mat k p * s.mat k p)
    if x ≤ 0 then { mat := s.mat, info := false }
    else
      let d := sq x
      { mat := fun i j =>
          if i = k ∧ j = k then d
          else if j = k ∧ k < i ∧ i < n then
            (s.mat i k - Finset.sum (Finset.range k) (fun p => s.mat i p * s.mat k p)) / d
          else s.mat i j
        info := true }

/-- `K.llt()`: the unblocked factorization run over all `n` columns.
Only the lower triangle of `K` is read. -/
def llt (sq : ℚ → ℚ) (n : ℕ) (K : ℕ → ℕ → ℚ) : LLT :=
  (List.range n).foldl (lltStep sq n) { mat := K, info := true }

/-- `matrixL()`: the lower-triangular view of the factor storage. -/
def lowerTri (m : ℕ → ℕ → ℚ) : ℕ → ℕ → ℚ :=
  fun i j => if j ≤ i then m i j else 0

/-- Forward substitution (`matrixL().solveInPlace` / `matrixL().solve`):
after `m` steps the entries `0, ..., m-1` of the solution of `L·z = b` are
in place, solved top down; entry `i` is
`(b i - Σ_(j<i) L i j * z j) / L i i`. -/
def fSolve (L : ℕ → ℕ → ℚ) (b : ℕ → ℚ) : ℕ → ℕ → ℚ
  | 0 => fun _ => 0
  | m + 1 => fun i =>
    if i = m then
      (b m - Finset.sum (Finset.range m) (fun j => L m j * fSolve L b m j)) / L m m
    else fSolve L b m i

/-- Backward substitution (`matrixU().solveInPlace`): after `k` steps the
rows `n-k, ..., n-1` of the solution of `U·w = b` are in place, solved
bottom up; row `r` is `(b r - Σ_(r<j<n) U r j * w j) / U r r`. -/
def bSolve (U : ℕ → ℕ → ℚ) (b : ℕ → ℚ) (n : ℕ) : ℕ → ℕ → ℚ
  | 0 => fun _ => 0
  | k + 1 => fun i =>
    let r := n - (k + 1)
    if i = r then
      (b r -
          Finset.sum (Finset.range k) (fun t => U r (r + 1 + t) * bSolve U b n k (r + 1 + t))) /
        U r r
    else bSolve U b n k i

/-- `solver.solveInPlace(alpha)`: forward substitution with `matrixL()`,
then backward substitution with `matrixU() = matrixL()ᵀ`. -/
def lltSolve (sq : ℚ → ℚ) (n : ℕ) (K : ℕ → ℕ → ℚ) (y : ℕ → ℚ) : ℕ → ℚ :=
  let L := lowerTri (llt sq n K).mat
  bSolve (fun i j => L j i) (fSolve L y n) n n

/-- `sampleset[i]->x` (out-of-range access is never performed by the code on
the index ranges the loops use). -/
def sampleX (ss : List Pattern) (i : ℕ) : List ℚ := (ss.getD i { x := [], y := 0 }).x

/-- `sampleset[i]->y`. -/
def sampleY (ss : List Pattern) (i : ℕ) : ℚ := (ss.getD i { x := [], y := 0 }).y

/-- The index pairs `(j, i)` at which the rebuild loop of `predict`
evaluates the kernel to fill the Gram matrix: for each outer `i < n`, the
inner loop runs `j = i, ..., n-1` and writes
`K(j,i) = covf->get(sampleset[j]->x, sampleset[i]->x)` — the lower triangle
only. -/
def gramCalls (n : ℕ) : List (ℕ × ℕ) :=
  (List.range n).flatMap (fun i => (List.range (n - i)).map (fun t => (i + t, i)))

/-- One write `K(j,i) = covf->get(sampleset[j]->x, sampleset[i]->x)`. -/
def writeEntry (cf : CovarianceFunction) (ss : List Pattern) (K : ℕ → ℕ → ℚ)
    (ji : ℕ × ℕ) : ℕ → ℕ → ℚ :=
  fun a b =>
    if a = ji.1 ∧ b = ji.2 then cf.get (sampleX ss ji.1) (sampleX ss ji.2) else K a b

/-- The Gram-matrix fill loop, as the sequence of entry writes it performs. -/
def gramFill (cf : CovarianceFunction) (ss : List Pattern) (calls : List (ℕ × ℕ))
    (K0 : ℕ → ℕ → ℚ) : ℕ → ℕ → ℚ :=
  calls.foldl (writeEntry cf ss) K0

/-- The kernel matrix `K` the rebuild step builds.  Entries outside the
written lower triangle keep the initial storage (uninitialized memory in the
C++ code, never read by the factorization; 0 here). -/
def gramLower (cf : CovarianceFunction) (ss : List Pattern) : ℕ → ℕ → ℚ :=
  gramFill cf ss (gramCalls ss.length) (fun _ _ => 0)

/-- The mathematical symmetric Gram matrix the spec speaks about. -/
def gramTrue (cf : CovarianceFunction) (ss : List Pattern) : ℕ → ℕ → ℚ :=
  fun i j => cf.get (sampleX ss i) (sampleX ss j)

/-- The target vector `y` (`alpha(i) = sampleset[i]->y` before the solve). -/
def targets (ss : List Pattern) : ℕ → ℚ := fun i => sampleY ss i

/-- GaussianProcess engine state (the gp.h members gp.cc uses). -/
structure GaussianProcess where
  input_dim : ℕ
  covf : CovarianceFunction
  sampleset : List Pattern
  alpha : ℕ → ℚ
  solver : LLT
  update : Bool

/-- Constructor `GaussianProcess(input_dim, covf_def)`: the covariance
function is produced by the external factory (out of scope) and passed in
directly here.  Modelled from the spec: gp.h, where the members are
declared and initialized, is not under src; the spec fixes the initial
cache state to Dirty (and the file-loading constructor in gp.cc ends with
`update = 1`).  `alpha` and `solver` are uninitialized in the code and
never read before the first rebuild; they are 0 here. -/
def GaussianProcess.construct (input_dim : ℕ) (covf : CovarianceFunction) :
    GaussianProcess :=
  { input_dim := input_dim
    covf := covf
    sampleset := []
    alpha := fun _ => 0
    solver := { mat := fun _ _ => 0, info := true }
    update := true }

/-- Dot product of two length-`n` vectors. -/
def dotR (n : ℕ) (u v : ℕ → ℚ) : ℚ :=
  Finset.sum (Finset.range n) (fun i => u i * v i)

/-- The `if (update)` block of `predict`: clear the flag, build the Gram
matrix (lower triangle) and the target vector, factorize with `llt()` and
solve `K·alpha = y` in place against the factor. -/
def rebuild (sq : ℚ → ℚ) (gp : GaussianProcess) : GaussianProcess :=
  if gp.update then
    let n := gp.sampleset.length
    let K := gramLower gp.covf gp.sampleset
    { gp with
      update := false
      solver := llt sq n K
      alpha := lltSolve sq n K (targets gp.sampleset) }
  else gp

/-- `kstar(i) = covf->get(x, sampleset[i]->x)`. -/
def kstarVec (cf : CovarianceFunction) (ss : List Pattern) (xv : List ℚ) : ℕ → ℚ :=
  fun i => cf.get xv (sampleX ss i)

/-- Result of one `predict` call: the returned mean, the value written into
the `var` reference (`none` when the reference is not written), the engine
state after the call, and — as instrumentation — whether the update branch
ran. -/
structure PredictResult where
  fstar : ℚ
  var : Option ℚ
  state : GaussianProcess
  rebuilt : Bool

/-- `GaussianProcess::predict(x, var, compute_variance)` (gp.cc lines
86-119).  Empty sample set: return 0.0 at once.  Otherwise run the rebuild
block if `update` is set, build `kstar` from the first `input_dim` entries
of the raw array `x`, return `kstar.dot(alpha)`, and, if requested, write
`var = get(x,x) - v.dot(v)` with `v = matrixL().solve(kstar)`. -/
def gpPredict (sq : ℚ → ℚ) (gp : GaussianProcess) (x : List ℚ)
    (compute_variance : Bool) : PredictResult :=
  if gp.sampleset.length = 0 then
    { fstar := 0, var := none, state := gp, rebuilt := false }
  else
    let gp1 := rebuild sq gp
    let n := gp1.sampleset.length
    let xv := readArray gp1.input_dim x
    let kstar := kstarVec gp1.covf gp1.sampleset xv
    let fstar := dotR n kstar gp1.alpha
    if compute_variance then
      let v := fSolve (lowerTri gp1.solver.mat) kstar n
      { fstar := fstar
        var := some (gp1.covf.get xv xv - dotR n v v)
        state := gp1
        rebuilt := gp.update }
    else
      { fstar := fstar, var := none, state := gp1, rebuilt := gp.update }

/-- `predict(x, var)` overload: forwards with `compute_variance = 1`. -/
def gpPredictWithVar (sq : ℚ → ℚ) (gp : GaussianProcess) (x : List ℚ) :
    PredictResult :=
  gpPredict sq gp x true

/-- `predict(x)` overload: declares a local `var`, forwards with
`compute_variance = 0`, discards the local. -/
def gpPredictMeanOnly (sq : ℚ → ℚ) (gp : GaussianProcess) (x : List ℚ) :
    ℚ × GaussianProcess :=
  ((gpPredict sq gp x false).fstar, (gpPredict sq gp x false).state)

/-- `GaussianProcess::add_pattern(x, y)`: builds a Pattern whose input is
`input_dim` entries copied from the raw array `x`, appends it to the
sample set and sets `update = 1`.  The parameter is a raw pointer, so no
length information exists and no validation is performed. -/
def add_pattern (gp : GaussianProcess) (x : List ℚ) (y : ℚ) : GaussianProcess :=
  { gp with
    sampleset := gp.sampleset ++ [{ x := readArray gp.input_dim x, y := y }]
    update := true }

/-- `GaussianProcess::get_sampleset_size()`. -/
def get_sampleset_size (gp : GaussianProcess) : ℕ := gp.sampleset.length

/-- `GaussianProcess::set_params(p)`: copies `param_dim` entries from the
raw array `p` into an Eigen vector, forwards to `set_loghyper` ignoring its
boolean result, and unconditionally sets `update = 1`. -/
def set_params (gp : GaussianProcess) (p : List ℚ) : GaussianProcess :=
  let param := readArray gp.covf.param_dim p
  { gp with covf := (gp.covf.set_loghyper param).2, update := true }

/-- `GaussianProcess::clear_sampleset()`: pops every sample; the `update`
flag is not touched. -/
def clear_sampleset (gp : GaussianProcess) : GaussianProcess :=
  { gp with sampleset := [] }

/-- `GaussianProcess::get_param_dim()`. -/
def get_param_dim (gp : GaussianProcess) : ℕ := gp.covf.param_dim

/-- The public operations of the engine (gp.cc). -/
inductive Op where
  | addPattern (x : List ℚ) (y : ℚ)
  | setParams (p : List ℚ)
  | predictOp (x : List ℚ) (cv : Bool)
  | getSamplesetSize
  | getParamDim
  | clearSampleset

/-- State effect of one engine operation. -/
def applyOp (sq : ℚ → ℚ) (gp : GaussianProcess) : Op → GaussianProcess
  | Op.addPattern x y => add_pattern gp x y
  | Op.setParams p => set_params gp p
  | Op.predictOp x cv => (gpPredict sq gp x cv).state
  | Op.getSamplesetSize => gp
  | Op.getParamDim => gp
  | Op.clearSampleset => clear_sampleset gp

/-- The operations of the spec's core contract (`add_pattern`,
`set_parameters`, `predict` and the read-only accessors);
`clear_sampleset` is outside it. -/
def Op.isCore : Op → Bool
  | Op.clearSampleset => false
  | _ => true

/-! ## Helper lemmas about the triangular substitutions -/

lemma listSumRange (n : ℕ) (f : ℕ → ℕ) :
    ((List.range n).map f).sum = Finset.sum (Finset.range n) f := by
  induction n with
  | zero => simp
  | succ m ih =>
    rw [List.range_succ, List.map_append, List.sum_append, Finset.sum_range_succ, ih]
    simp

lemma fSolve_stable (L : ℕ → ℕ → ℚ) (b : ℕ → ℚ) :
    ∀ m' m i, i < m → m ≤ m' → fSolve L b m' i = fSolve L b m i := by
  intro m'
  induction m' with
  | zero =>
    intro m i hi hm
    exact absurd (hi.trans_le hm) (Nat.not_lt_zero i)
  | succ q ih =>
    intro m i hi hm
    rcases Nat.eq_or_lt_of_le hm with h | h
    · rw [h]
    · have hiq : i ≠ q := by omega
      show fSolve L b (q + 1) i = fSolve L b m i
      simp only [fSolve, hiq, if_false]
      exact ih m i hi (by omega)

lemma fSolve_eq (L : ℕ → ℕ → ℚ) (b : ℕ → ℚ) (n i : ℕ) (hi : i < n) :
    fSolve L b n i =
      (b i - Finset.sum (Finset.range i) (fun j => L i j * fSolve L b n j)) / L i i := by
  rw [fSolve_stable L b n (i + 1) i (by omega) hi]
  simp only [fSolve]
  rw [if_pos trivial]
  congr 2
  apply Finset.sum_congr rfl
  intro j hj
  rw [Finset.mem_range] at hj
  rw [fSolve_stable L b i (j + 1) j (by omega) (by omega),
    fSolve_stable L b n (j + 1) j (by omega) (by omega)]

lemma fSolve_forward (L : ℕ → ℕ → ℚ) (b : ℕ → ℚ) (n : ℕ)
    (hup : ∀ i j, i < j → L i j = 0) (hd : ∀ i, i < n → L i i ≠ 0) :
    ∀ i, i < n → Finset.sum (Finset.range n) (fun j => L i j * fSolve L b n j) = b i := by
  intro i hi
  rw [← Finset.sum_range_add_sum_Ico _ (show i + 1 ≤ n by omega)]
  have hico : Finset.sum (Finset.Ico (i + 1) n) (fun j => L i j * fSolve L b n j) = 0 := by
    apply Finset.sum_eq_zero
    intro j hj
    rw [Finset.mem_Ico] at hj
    rw [hup i j (by omega)]
    ring
  rw [hico, add_zero, Finset.sum_range_succ, fSolve_eq L b n i hi, mul_comm,
    div_mul_cancel₀ _ (hd i hi)]
  ring

lemma bSolve_stable (U : ℕ → ℕ → ℚ) (b : ℕ → ℚ) (n : ℕ) :
    ∀ k' k i, n - i ≤ k → k ≤ k' → k' ≤ n → i < n → bSolve U b n k' i = bSolve U b n k i := by
  intro k'
  induction k' with
  | zero =>
    intro k i hik hk _ hin
    have : k = 0 := by omega
    rw [this]
  | succ q ih =>
    intro k i hik hk hq hin
    rcases Nat.eq_or_lt_of_le hk with h | h
    · rw [h]
    · have hir : i ≠ n - (q + 1) := by omega
      show bSolve U b n (q + 1) i = bSolve U b n k i
      simp only [bSolve, hir, if_false]
      exact ih k i hik (by omega) (by omega) hin

lemma bSolve_eq (U : ℕ → ℕ → ℚ) (b : ℕ → ℚ) (n i : ℕ) (hi : i < n) :
    bSolve U b n n i =
      (b i - Finset.sum (Finset.Ico (i + 1) n) (fun j => U i j * bSolve U b n n j)) /
        U i i := by
  rw [bSolve_stable U b n n (n - i) i (le_refl _) (by omega) (le_refl _) hi]
  have h2 : n - i = (n - i - 1) + 1 := by omega
  rw [h2]
  have hr : n - (n - i - 1 + 1) = i := by omega
  simp only [bSolve, hr]
  rw [if_pos trivial]
  rw [Finset.sum_Ico_eq_sum_range _ (i + 1) n]
  have h3 : n - (i + 1) = n - i - 1 := by omega
  rw [h3]
  congr 2
  apply Finset.sum_congr rfl
  intro t ht
  rw [Finset.mem_range] at ht
  congr 1
  rw [bSolve_stable U b n n (n - i - 1) (i + 1 + t) (by omega) (by omega) (le_refl _) (by omega)]

lemma bSolve_backward (U : ℕ → ℕ → ℚ) (b : ℕ → ℚ) (n : ℕ)
    (hlo : ∀ i j, j < i → U i j = 0) (hd : ∀ i, i < n → U i i ≠ 0) :
    ∀ i, i < n → Finset.sum (Finset.range n) (fun j => U i j * bSolve U b n n j) = b i := by
  intro i hi
  rw [← Finset.sum_range_add_sum_Ico _ (show i + 1 ≤ n by omega), Finset.sum_range_succ]
  have h0 : Finset.sum (Finset.range i) (fun j => U i j * bSolve U b n n j) = 0 := by
    apply Finset.sum_eq_zero
    intro j hj
    rw [hlo i j (Finset.mem_range.mp hj)]
    ring
  rw [h0, zero_add, bSolve_eq U b n i hi, mul_comm, div_mul_cancel₀ _ (hd i hi)]
  ring

lemma lowerTri_upper (m : ℕ → ℕ → ℚ) (i j : ℕ) (h : i < j) : lowerTri m i j = 0 := by
  unfold lowerTri
  rw [if_neg (by omega)]

/-- Correctness of `solveInPlace` against the stored factor: if the
lower-triangular factor has nonzero diagonal up to `n` and `A` is the matrix
it reconstructs (`A = L·Lᵗ` on indices below `n`), then the vector produced
by the forward/backward substitution pair solves `A·alpha = y`. -/
lemma lltSolve_solves (sq : ℚ → ℚ) (n : ℕ) (K A : ℕ → ℕ → ℚ) (y : ℕ → ℚ)
    (hd : ∀ i, i < n → lowerTri (llt sq n K).mat i i ≠ 0)
    (hA : ∀ i j, i < n → j < n →
      A i j = Finset.sum (Finset.range n) (fun p =>
        lowerTri (llt sq n K).mat i p * lowerTri (llt sq n K).mat j p)) :
    ∀ i, i < n →
      Finset.sum (Finset.range n) (fun j => A i j * lltSolve sq n K y j) = y i := by
  intro i hi
  set L := lowerTri (llt sq n K).mat with hL
  set U : ℕ → ℕ → ℚ := fun a b => L b a with hU
  set z := fSolve L y n with hz
  have hsol : lltSolve sq n K y = bSolve U z n n := rfl
  rw [hsol]
  calc
    Finset.sum (Finset.range n) (fun j => A i j * bSolve U z n n j)
        = Finset.sum (Finset.range n) (fun j =>
            Finset.sum (Finset.range n) (fun p => L i p * (L j p * bSolve U z n n j))) := by
          apply Finset.sum_congr rfl
          intro j hj
          rw [hA i j hi (Finset.mem_range.mp hj), Finset.sum_mul]
          apply Finset.sum_congr rfl
          intro p _
          ring
    _ = Finset.sum (Finset.range n) (fun p =>
          L i p * Finset.sum (Finset.range n) (fun j => L j p * bSolve U z n n j)) := by
          rw [Finset.sum_comm]
          apply Finset.sum_congr rfl
          intro p _
          rw [Finset.mul_sum]
    _ = Finset.sum (Finset.range n) (fun p => L i p * z p) := by
          apply Finset.sum_congr rfl
          intro p hp
          congr 1
          exact bSolve_backward U z n (fun a c hc => lowerTri_upper _ _ _ hc)
            (fun a ha => hd a ha) p (Finset.mem_range.mp hp)
    _ = y i := fSolve_forward L y n (fun a c hac => lowerTri_upper _ _ _ hac) hd i hi

/-! ## Helper lemmas about the Gram-matrix fill -/

lemma gramCalls_mem (n : ℕ) (p : ℕ × ℕ) :
    p ∈ gramCalls n ↔ p.2 ≤ p.1 ∧ p.1 < n := by
  unfold gramCalls
  rw [List.mem_flatMap]
  constructor
  · rintro ⟨i, hi, hp⟩
    rw [List.mem_range] at hi
    rw [List.mem_map] at hp
    rcases hp with ⟨t, ht, hpt⟩
    rw [List.mem_range] at ht
    rw [← hpt]
    constructor
    · simp
    · simp only []
      omega
  · rintro ⟨h1, h2⟩
    refine ⟨p.2, ?_, ?_⟩
    · rw [List.mem_range]; omega
    · rw [List.mem_map]
      refine ⟨p.1 - p.2, ?_, ?_⟩
      · rw [List.mem_range]; omega
      · have : p.2 + (p.1 - p.2) = p.1 := by omega
        rw [this]

lemma gramCalls_length_mul_two (n : ℕ) : (gramCalls n).length * 2 = n * (n + 1) := by
  unfold gramCalls
  rw [List.length_flatMap]
  simp only [Function.comp_def, List.length_map, List.length_range]
  rw [listSumRange]
  have h2 : Finset.sum (Finset.range n) (fun i => n - i) =
      Finset.sum (Finset.range n) (fun i => i + 1) := by
    rw [← Finset.sum_range_reflect (fun i => i + 1) n]
    apply Finset.sum_congr rfl
    intro j hj
    rw [Finset.mem_range] at hj
    omega
  rw [h2]
  have h3 : Finset.sum (Finset.range n) (fun i => i + 1) =
      Finset.sum (Finset.range (n + 1)) (fun i => i) := by
    rw [Finset.sum_range_succ' (fun i => i) n, add_zero]
  rw [h3, Finset.sum_range_id_mul_two (n + 1)]
  have h4 : n + 1 - 1 = n := rfl
  rw [h4, Nat.mul_comm]

lemma gramCalls_length (n : ℕ) : (gramCalls n).length = n * (n + 1) / 2 := by
  have := gramCalls_length_mul_two n
  omega

lemma gramFill_eq (cf : CovarianceFunction) (ss : List Pattern) :
    ∀ (calls : List (ℕ × ℕ)) (K0 : ℕ → ℕ → ℚ) (a b : ℕ),
      gramFill cf ss calls K0 a b =
        if (a, b) ∈ calls then cf.get (sampleX ss a) (sampleX ss b) else K0 a b := by
  intro calls
  induction calls with
  | nil => intro K0 a b; simp [gramFill]
  | cons c rest ih =>
    intro K0 a b
    have hstep : gramFill cf ss (c :: rest) K0 = gramFill cf ss rest (writeEntry cf ss K0 c) := rfl
    rw [hstep, ih]
    by_cases hr : (a, b) ∈ rest
    · rw [if_pos hr, if_pos (List.mem_cons_of_mem c hr)]
    · rw [if_neg hr]
      unfold writeEntry
      by_cases hc : a = c.1 ∧ b = c.2
      · rw [if_pos hc]
        have hm : (a, b) ∈ c :: rest := by
          rw [List.mem_cons]
          left
          rw [hc.1, hc.2]
        rw [if_pos hm, hc.1, hc.2]
      · rw [if_neg hc]
        have hm : (a, b) ∉ c :: rest := by
          rw [List.mem_cons]
          rintro (h | h)
          · apply hc
            constructor
            · rw [← h]
            · rw [← h]
          · exact hr h
        rw [if_neg hm]

lemma gramLower_entry (cf : CovarianceFunction) (ss : List Pattern) (i j : ℕ)
    (hj : j ≤ i) (hi : i < ss.length) :
    gramLower cf ss i j = cf.get (sampleX ss i) (sampleX ss j) := by
  unfold gramLower
  rw [gramFill_eq]
  rw [if_pos]
  rw [gramCalls_mem]
  exact ⟨hj, hi⟩

/-! ## Unfolding lemmas for the engine operations -/

lemma rebuild_sampleset (sq : ℚ → ℚ) (gp : GaussianProcess) :
    (rebuild sq gp).sampleset = gp.sampleset := by
  unfold rebuild
  cases h : gp.update <;> simp [h]

lemma rebuild_covf (sq : ℚ → ℚ) (gp : GaussianProcess) :
    (rebuild sq gp).covf = gp.covf := by
  unfold rebuild
  cases h : gp.update <;> simp [h]

lemma rebuild_input_dim (sq : ℚ → ℚ) (gp : GaussianProcess) :
    (rebuild sq gp).input_dim = gp.input_dim := by
  unfold rebuild
  cases h : gp.update <;> simp [h]

lemma rebuild_update (sq : ℚ → ℚ) (gp : GaussianProcess) :
    (rebuild sq gp).update = false := by
  unfold rebuild
  cases h : gp.update <;> simp [h]

lemma rebuild_alpha_of_update (sq : ℚ → ℚ) (gp : GaussianProcess)
    (h : gp.update = true) :
    (rebuild sq gp).alpha =
      lltSolve sq gp.sampleset.length (gramLower gp.covf gp.sampleset)
        (targets gp.sampleset) := by
  unfold rebuild
  rw [if_pos h]

lemma rebuild_solver_of_update (sq : ℚ → ℚ) (gp : GaussianProcess)
    (h : gp.update = true) :
    (rebuild sq gp).solver =
      llt sq gp.sampleset.length (gramLower gp.covf gp.sampleset) := by
  unfold rebuild
  rw [if_pos h]

lemma rebuild_of_clean (sq : ℚ → ℚ) (gp : GaussianProcess)
    (h : gp.update = false) : rebuild sq gp = gp := by
  unfold rebuild
  rw [h]
  simp

lemma gpPredict_empty (sq : ℚ → ℚ) (gp : GaussianProcess) (x : List ℚ) (cv : Bool)
    (h : gp.sampleset.length = 0) :
    gpPredict sq gp x cv = { fstar := 0, var := none, state := gp, rebuilt := false } := by
  unfold gpPredict
  rw [if_pos h]

lemma gpPredict_state (sq : ℚ → ℚ) (gp : GaussianProcess) (x : List ℚ) (cv : Bool)
    (h : gp.sampleset.length ≠ 0) :
    (gpPredict sq gp x cv).state = rebuild sq gp := by
  unfold gpPredict
  rw [if_neg h]
  cases cv <;> rfl

lemma gpPredict_rebuilt (sq : ℚ → ℚ) (gp : GaussianProcess) (x : List ℚ) (cv : Bool)
    (h : gp.sampleset.length ≠ 0) :
    (gpPredict sq gp x cv).rebuilt = gp.update := by
  unfold gpPredict
  rw [if_neg h]
  cases cv <;> rfl

lemma gpPredict_fstar (sq : ℚ → ℚ) (gp : GaussianProcess) (x : List ℚ) (cv : Bool)
    (h : gp.sampleset.length ≠ 0) :
    (gpPredict sq gp x cv).fstar =
      dotR gp.sampleset.length
        (kstarVec gp.covf gp.sampleset (readArray gp.input_dim x))
        (rebuild sq gp).alpha := by
  unfold gpPredict
  rw [if_neg h]
  cases cv <;> simp [rebuild_sampleset, rebuild_covf, rebuild_input_dim]

lemma gpPredict_var_false (sq : ℚ → ℚ) (gp : GaussianProcess) (x : List ℚ) :
    (gpPredict sq gp x false).var = none := by
  unfold gpPredict
  by_cases h : gp.sampleset.length = 0
  · rw [if_pos h]
  · rw [if_neg h]
    simp

lemma gpPredict_var_true (sq : ℚ → ℚ) (gp : GaussianProcess) (x : List ℚ)
    (h : gp.sampleset.length ≠ 0) :
    (gpPredict sq gp x true).var =
      some (gp.covf.get (readArray gp.input_dim x) (readArray gp.input_dim x) -
        dotR gp.sampleset.length
          (fSolve (lowerTri (rebuild sq gp).solver.mat)
            (kstarVec gp.covf gp.sampleset (readArray gp.input_dim x))
            gp.sampleset.length)
          (fSolve (lowerTri (rebuild sq gp).solver.mat)
            (kstarVec gp.covf gp.sampleset (readArray gp.input_dim x))
            gp.sampleset.length)) := by
  unfold gpPredict
  rw [if_neg h]
  simp [rebuild_sampleset, rebuild_covf, rebuild_input_dim]

/-! ## Claim theorems -/

/-- C1: on a nonempty SampleSet, predict returns the mean as the dot
product kstar · alpha, with kstar i = get(x, sample_i) over the training
samples in insertion order; alpha is exactly the vector the rebuild step
computes by solving K·alpha = y against the Cholesky factor L (forward
then backward substitution), and whenever that factor is exact — nonzero
diagonal and L·Lᵀ reproducing the Gram matrix — alpha indeed solves
K·alpha = y. -/
theorem predict_mean_kstar_dot_alpha (sq : ℚ → ℚ) (gp : GaussianProcess)
    (x : List ℚ) (cv : Bool) (hne : gp.sampleset.length ≠ 0) :
    ((gpPredict sq gp x cv).fstar =
      dotR gp.sampleset.length
        (kstarVec gp.covf gp.sampleset (readArray gp.input_dim x))
        (rebuild sq gp).alpha) ∧
    (gp.update = true →
      (rebuild sq gp).alpha =
        lltSolve sq gp.sampleset.length (gramLower gp.covf gp.sampleset)
          (targets gp.sampleset)) ∧
    ((∀ i, i < gp.sampleset.length →
        lowerTri (llt sq gp.sampleset.length (gramLower gp.covf gp.sampleset)).mat i i ≠ 0) →
      (∀ i j, i < gp.sampleset.length → j < gp.sampleset.length →
        gramTrue gp.covf gp.sampleset i j =
          Finset.sum (Finset.range gp.sampleset.length) (fun p =>
            lowerTri (llt sq gp.sampleset.length (gramLower gp.covf gp.sampleset)).mat i p *
              lowerTri (llt sq gp.sampleset.length (gramLower gp.covf gp.sampleset)).mat j p)) →
      gp.update = true →
      ∀ i, i < gp.sampleset.length →
        Finset.sum (Finset.range gp.sampleset.length)
          (fun j => gramTrue gp.covf gp.sampleset i j * (rebuild sq gp).alpha j) =
          targets gp.sampleset i) := by
  refine ⟨gpPredict_fstar sq gp x cv hne, fun h => rebuild_alpha_of_update sq gp h, ?_⟩
  intro hd hA hupd i hi
  simp only [rebuild_alpha_of_update sq gp hupd]
  exact lltSolve_solves sq gp.sampleset.length (gramLower gp.covf gp.sampleset)
    (gramTrue gp.covf gp.sampleset) (targets gp.sampleset) hd hA i hi

/-- Witness engine for C1: one sample (x = [0], y = 8), constant kernel 4,
machine square root exact at 4. -/
def sqW1 : ℚ → ℚ := fun q => if q = 4 then 2 else 0

def gpW1 : GaussianProcess :=
  { input_dim := 1
    covf := { input_dim := 1, param_dim := 1, loghyper := [0], getFn := fun _ _ _ => 4 }
    sampleset := [{ x := [0], y := 8 }]
    alpha := fun _ => 0
    solver := { mat := fun _ _ => 0, info := true }
    update := true }

theorem predict_mean_kstar_dot_alpha_witness :
    gpW1.sampleset.length ≠ 0 ∧
      ((gpPredict sqW1 gpW1 [0] false).fstar =
        dotR gpW1.sampleset.length
          (kstarVec gpW1.covf gpW1.sampleset (readArray gpW1.input_dim [0]))
          (rebuild sqW1 gpW1).alpha) ∧
      (gpPredict sqW1 gpW1 [0] false).fstar = 8 ∧
      (∀ i, i < gpW1.sampleset.length →
        Finset.sum (Finset.range gpW1.sampleset.length)
          (fun j => gramTrue gpW1.covf gpW1.sampleset i j * (rebuild sqW1 gpW1).alpha j) =
          targets gpW1.sampleset i) := by
  have hK : gramLower gpW1.covf gpW1.sampleset 0 0 = 4 := by decide
  have hL : (llt sqW1 1 (gramLower gpW1.covf gpW1.sampleset)).mat 0 0 = 2 := by
    unfold llt lltStep
    rw [show List.range 1 = [0] from rfl]
    norm_num [hK, sqW1]
  have hLT : lowerTri (llt sqW1 1 (gramLower gpW1.covf gpW1.sampleset)).mat 0 0 = 2 := by
    unfold lowerTri
    rw [if_pos (le_refl 0), hL]
  have hd : ∀ i, i < gpW1.sampleset.length →
      lowerTri (llt sqW1 gpW1.sampleset.length (gramLower gpW1.covf gpW1.sampleset)).mat i i ≠ 0 := by
    intro i hi
    have hi0 : i = 0 := by
      rw [show gpW1.sampleset.length = 1 from rfl] at hi
      omega
    subst hi0
    rw [show gpW1.sampleset.length = 1 from rfl, hLT]
    norm_num
  have hA : ∀ i j, i < gpW1.sampleset.length → j < gpW1.sampleset.length →
      gramTrue gpW1.covf gpW1.sampleset i j =
        Finset.sum (Finset.range gpW1.sampleset.length) (fun p =>
          lowerTri (llt sqW1 gpW1.sampleset.length (gramLower gpW1.covf gpW1.sampleset)).mat i p *
            lowerTri (llt sqW1 gpW1.sampleset.length (gramLower gpW1.covf gpW1.sampleset)).mat j p) := by
    intro i j hi hj
    have hi0 : i = 0 := by
      rw [show gpW1.sampleset.length = 1 from rfl] at hi
      omega
    have hj0 : j = 0 := by
      rw [show gpW1.sampleset.length = 1 from rfl] at hj
      omega
    subst hi0
    subst hj0
    rw [show gpW1.sampleset.length = 1 from rfl, Finset.sum_range_one, hLT]
    have hg : gramTrue gpW1.covf gpW1.sampleset 0 0 = 4 := by decide
    rw [hg]
    norm_num
  have h := predict_mean_kstar_dot_alpha sqW1 gpW1 [0] false (by decide)
  refine ⟨by decide, h.1, ?_, h.2.2 hd hA rfl⟩
  rw [h.1, rebuild_alpha_of_update sqW1 gpW1 rfl]
  rw [show gpW1.sampleset.length = 1 from rfl]
  have hz : fSolve (lowerTri (llt sqW1 1 (gramLower gpW1.covf gpW1.sampleset)).mat)
      (targets gpW1.sampleset) 1 0 = 4 := by
    rw [fSolve_eq _ _ 1 0 (by norm_num)]
    rw [Finset.range_zero, Finset.sum_empty, hLT]
    have hy : targets gpW1.sampleset 0 = 8 := by decide
    rw [hy]
    norm_num
  have ha : lltSolve sqW1 1 (gramLower gpW1.covf gpW1.sampleset) (targets gpW1.sampleset) 0 = 2 := by
    show bSolve (fun i j => lowerTri (llt sqW1 1 (gramLower gpW1.covf gpW1.sampleset)).mat j i)
      (fSolve (lowerTri (llt sqW1 1 (gramLower gpW1.covf gpW1.sampleset)).mat)
        (targets gpW1.sampleset) 1) 1 1 0 = 2
    rw [bSolve_eq _ _ 1 0 (by norm_num)]
    rw [Finset.Ico_self, Finset.sum_empty]
    simp only [hz, hLT]
    norm_num
  unfold dotR
  rw [Finset.sum_range_one, ha]
  have hks : kstarVec gpW1.covf gpW1.sampleset (readArray gpW1.input_dim [0]) 0 = 4 := by decide
  rw [hks]
  norm_num

/-- C2: with variance requested on a nonempty SampleSet, predict writes
var = get(x,x) - v·v, where v is obtained from kstar by forward
substitution only against the stored lower factor L (and indeed solves
L·v = kstar whenever L's diagonal is nonzero below n); the raw value is
reported without clamping — even when it comes out non-positive. -/
theorem predict_variance_formula (sq : ℚ → ℚ) (gp : GaussianProcess)
    (x : List ℚ) (hne : gp.sampleset.length ≠ 0) :
    ((gpPredict sq gp x true).var =
      some (gp.covf.get (readArray gp.input_dim x) (readArray gp.input_dim x) -
        dotR gp.sampleset.length
          (fSolve (lowerTri (rebuild sq gp).solver.mat)
            (kstarVec gp.covf gp.sampleset (readArray gp.input_dim x))
            gp.sampleset.length)
          (fSolve (lowerTri (rebuild sq gp).solver.mat)
            (kstarVec gp.covf gp.sampleset (readArray gp.input_dim x))
            gp.sampleset.length))) ∧
    ((∀ i, i < gp.sampleset.length →
        lowerTri (rebuild sq gp).solver.mat i i ≠ 0) →
      ∀ i, i < gp.sampleset.length →
        Finset.sum (Finset.range gp.sampleset.length)
          (fun j => lowerTri (rebuild sq gp).solver.mat i j *
            fSolve (lowerTri (rebuild sq gp).solver.mat)
              (kstarVec gp.covf gp.sampleset (readArray gp.input_dim x))
              gp.sampleset.length j) =
          kstarVec gp.covf gp.sampleset (readArray gp.input_dim x) i) := by
  refine ⟨gpPredict_var_true sq gp x hne, ?_⟩
  intro hd i hi
  exact fSolve_forward (lowerTri (rebuild sq gp).solver.mat)
    (kstarVec gp.covf gp.sampleset (readArray gp.input_dim x)) gp.sampleset.length
    (fun a c hac => lowerTri_upper _ _ _ hac) hd i hi

/-- Witness engine for C2: one sample at [0], kernel 1 on equal inputs and
4 otherwise, query at [7]; the reported variance is the raw, negative
value 1 - 16 = -15. -/
def sqW2 : ℚ → ℚ := fun q => if q = 1 then 1 else 0

def gpW2 : GaussianProcess :=
  { input_dim := 1
    covf := { input_dim := 1, param_dim := 1, loghyper := [0]
              getFn := fun _ a b => if a = b then 1 else 4 }
    sampleset := [{ x := [0], y := 1 }]
    alpha := fun _ => 0
    solver := { mat := fun _ _ => 0, info := true }
    update := true }

theorem predict_variance_formula_witness :
    gpW2.sampleset.length ≠ 0 ∧
      (gpPredict sqW2 gpW2 [7] true).var = some (-15) ∧ ((-15 : ℚ) < 0) ∧
      (∀ i, i < gpW2.sampleset.length →
        Finset.sum (Finset.range gpW2.sampleset.length)
          (fun j => lowerTri (rebuild sqW2 gpW2).solver.mat i j *
            fSolve (lowerTri (rebuild sqW2 gpW2).solver.mat)
              (kstarVec gpW2.covf gpW2.sampleset (readArray gpW2.input_dim [7]))
              gpW2.sampleset.length j) =
          kstarVec gpW2.covf gpW2.sampleset (readArray gpW2.input_dim [7]) i) := by
  have hK : gramLower gpW2.covf gpW2.sampleset 0 0 = 1 := by decide
  have hL : (llt sqW2 1 (gramLower gpW2.covf gpW2.sampleset)).mat 0 0 = 1 := by
    unfold llt lltStep
    rw [show List.range 1 = [0] from rfl]
    norm_num [hK, sqW2]
  have hLT : lowerTri (llt sqW2 1 (gramLower gpW2.covf gpW2.sampleset)).mat 0 0 = 1 := by
    unfold lowerTri
    rw [if_pos (le_refl 0), hL]
  have hd : ∀ i, i < gpW2.sampleset.length →
      lowerTri (rebuild sqW2 gpW2).solver.mat i i ≠ 0 := by
    simp only [rebuild_solver_of_update sqW2 gpW2 rfl]
    intro i hi
    have hi0 : i = 0 := by
      rw [show gpW2.sampleset.length = 1 from rfl] at hi
      omega
    subst hi0
    rw [show gpW2.sampleset.length = 1 from rfl, hLT]
    norm_num
  have h := predict_variance_formula sqW2 gpW2 [7] (by decide)
  refine ⟨by decide, ?_, by norm_num, h.2 hd⟩
  rw [h.1]
  rw [rebuild_solver_of_update sqW2 gpW2 rfl]
  rw [show gpW2.sampleset.length = 1 from rfl]
  have hks : kstarVec gpW2.covf gpW2.sampleset (readArray gpW2.input_dim [7]) 0 = 4 := by decide
  have hget : gpW2.covf.get (readArray gpW2.input_dim [7]) (readArray gpW2.input_dim [7]) = 1 := by
    decide
  have hv : fSolve (lowerTri (llt sqW2 1 (gramLower gpW2.covf gpW2.sampleset)).mat)
      (kstarVec gpW2.covf gpW2.sampleset (readArray gpW2.input_dim [7])) 1 0 = 4 := by
    rw [fSolve_eq _ _ 1 0 (by norm_num)]
    rw [Finset.range_zero, Finset.sum_empty, hLT, hks]
    norm_num
  show some _ = some _
  congr 1
  rw [hget]
  unfold dotR
  rw [Finset.sum_range_one, hv]
  norm_num

/-- C3: predict on an engine whose SampleSet is empty returns mean 0.0
immediately: the variance output is not written even when variance is
requested, no Cholesky factorization is attempted (the rebuild branch does
not run) and the engine state — cache included — is untouched. -/
theorem predict_empty_returns_zero (sq : ℚ → ℚ) (gp : GaussianProcess)
    (x : List ℚ) (cv : Bool) (h : gp.sampleset.length = 0) :
    gpPredict sq gp x cv =
      { fstar := 0, var := none, state := gp, rebuilt := false } :=
  gpPredict_empty sq gp x cv h

/-- Witness engine for C3: a freshly constructed engine, no samples. -/
def gpEmptyW : GaussianProcess :=
  GaussianProcess.construct 1
    { input_dim := 1, param_dim := 1, loghyper := [0], getFn := fun _ _ _ => 1 }

theorem predict_empty_returns_zero_witness :
    gpEmptyW.sampleset.length = 0 ∧
      gpPredict (fun q => q) gpEmptyW [5] true =
        { fstar := 0, var := none, state := gpEmptyW, rebuilt := false } :=
  ⟨rfl, predict_empty_returns_zero (fun q => q) gpEmptyW [5] true rfl⟩

/-- C10: whenever compute_variance is false — in particular through the
one-argument predict overload, which forwards 0 and discards its local —
the caller's variance output argument is never written; only the mean is
produced. -/
theorem predict_without_variance_frame (sq : ℚ → ℚ) (gp : GaussianProcess)
    (x : List ℚ) :
    (gpPredict sq gp x false).var = none ∧
      gpPredictMeanOnly sq gp x =
        ((gpPredict sq gp x false).fstar, (gpPredict sq gp x false).state) :=
  ⟨gpPredict_var_false sq gp x, rfl⟩

/-- C5: the cache flag follows exactly the claimed state machine: the
engine is constructed Dirty (initial flag modelled from the spec, gp.h not
being under src); add_pattern and set_params always set Dirty; predict
leaves the flag unchanged on an empty SampleSet and otherwise clears it —
so Dirty → Clean happens only through predict's rebuild branch,
instrumented by `rebuilt`; no other operation changes the flag. -/
theorem cache_flag_state_machine (sq : ℚ → ℚ) (d : ℕ) (cf : CovarianceFunction)
    (gp : GaussianProcess) (xq : List ℚ) (cv : Bool) :
    (GaussianProcess.construct d cf).update = true ∧
      (∀ op : Op, (applyOp sq gp op).update =
        match op with
        | Op.addPattern _ _ => true
        | Op.setParams _ => true
        | Op.predictOp _ _ => if gp.sampleset.length = 0 then gp.update else false
        | _ => gp.update) ∧
      ((gpPredict sq gp xq cv).rebuilt = true ↔
        gp.sampleset.length ≠ 0 ∧ gp.update = true) := by
  refine ⟨rfl, ?_, ?_⟩
  · intro op
    cases op with
    | addPattern x y => rfl
    | setParams p => rfl
    | predictOp x cv2 =>
      show (gpPredict sq gp x cv2).state.update = _
      by_cases h : gp.sampleset.length = 0
      · rw [gpPredict_empty sq gp x cv2 h, if_pos h]
      · rw [gpPredict_state sq gp x cv2 h, rebuild_update, if_neg h]
    | getSamplesetSize => rfl
    | getParamDim => rfl
    | clearSampleset => rfl
  · by_cases h : gp.sampleset.length = 0
    · rw [gpPredict_empty sq gp xq cv h]
      simp [h]
    · rw [gpPredict_rebuilt sq gp xq cv h]
      constructor
      · intro hu
        exact ⟨h, hu⟩
      · intro hu
        exact hu.2

/-- Engine for C4: the kernel identically 0 gives the 1×1 Gram matrix
[[0]], which is not positive-definite (first pivot not positive). -/
def gpSingular : GaussianProcess :=
  { input_dim := 1
    covf := { input_dim := 1, param_dim := 1, loghyper := [0], getFn := fun _ _ _ => 0 }
    sampleset := [{ x := [0], y := 1 }]
    alpha := fun _ => 0
    solver := { mat := fun _ _ => 0, info := true }
    update := true }

/-- C4 counterexample: at the non-positive-definite Gram matrix [[0]] the
factorization records the failure internally (info = false), yet predict
returns normally — no error reaches the caller — and the cache ends up
Clean (update = false) instead of remaining Dirty. -/
theorem predict_not_pd_counterexample :
    gpSingular.update = true ∧
      (gpPredict (fun q => q) gpSingular [0] false).state.solver.info = false ∧
      (gpPredict (fun q => q) gpSingular [0] false).state.update = false := by
  have hK : gramLower gpSingular.covf gpSingular.sampleset 0 0 = 0 := by decide
  have hinfo :
      (llt (fun q => q) 1 (gramLower gpSingular.covf gpSingular.sampleset)).info = false := by
    unfold llt lltStep
    rw [show List.range 1 = [0] from rfl]
    norm_num [hK]
  refine ⟨rfl, ?_, ?_⟩
  · rw [gpPredict_state (fun q => q) gpSingular [0] false (by decide),
      rebuild_solver_of_update (fun q => q) gpSingular rfl]
    exact hinfo
  · rw [gpPredict_state (fun q => q) gpSingular [0] false (by decide), rebuild_update]

/-- C4 amended: gp.cc never inspects the factorization's status: on a
nonempty SampleSet predict always returns a value and always leaves the
cache flag Clean (update = 0, set before the factorization runs) — even
when the Gram matrix is not positive-definite no NumericalError is raised
and the cache does not remain Dirty. -/
theorem predict_always_clears_update (sq : ℚ → ℚ) (gp : GaussianProcess)
    (x : List ℚ) (cv : Bool) (h : gp.sampleset.length ≠ 0) :
    (gpPredict sq gp x cv).state.update = false := by
  rw [gpPredict_state sq gp x cv h, rebuild_update]

theorem predict_always_clears_update_witness :
    gpSingular.sampleset.length ≠ 0 ∧
      (gpPredict (fun q => q) gpSingular [0] true).state.update = false :=
  ⟨by decide, predict_always_clears_update (fun q => q) gpSingular [0] true (by decide)⟩

/-- Engine for C6: input_dim = 1, empty SampleSet. -/
def gpDim1 : GaussianProcess :=
  GaussianProcess.construct 1
    { input_dim := 1, param_dim := 1, loghyper := [0], getFn := fun _ _ _ => 0 }

/-- C6 counterexample: the length-2 vector [1, 2] does not match
input_dim = 1, yet add_pattern neither fails nor leaves the SampleSet
unchanged: a sample is appended (size 0 to 1). -/
theorem add_pattern_no_validation_counterexample :
    (([1, 2] : List ℚ).length ≠ gpDim1.input_dim) ∧
      gpDim1.sampleset.length = 0 ∧
      (add_pattern gpDim1 [1, 2] 5).sampleset.length = 1 := by
  refine ⟨by decide, rfl, rfl⟩

/-- C6 amended: add_pattern receives a raw array carrying no length, so no
validation exists: for every x it appends exactly one sample — whose input
is the first input_dim entries read from x — and sets the cache Dirty; the
SampleSet never stays unchanged. -/
theorem add_pattern_always_appends (gp : GaussianProcess) (x : List ℚ) (y : ℚ) :
    (add_pattern gp x y).sampleset =
        gp.sampleset ++ [{ x := readArray gp.input_dim x, y := y }] ∧
      (add_pattern gp x y).sampleset.length = gp.sampleset.length + 1 ∧
      (add_pattern gp x y).update = true := by
  refine ⟨rfl, ?_, rfl⟩
  show (gp.sampleset ++ [({ x := readArray gp.input_dim x, y := y } : Pattern)]).length =
    gp.sampleset.length + 1
  rw [List.length_append, List.length_singleton]

/-- Engine for C7: a covariance function with param_dim = 2 and
hyperparameters [0, 0]. -/
def gpParams2 : GaussianProcess :=
  { input_dim := 1
    covf := { input_dim := 1, param_dim := 2, loghyper := [0, 0], getFn := fun _ _ _ => 0 }
    sampleset := []
    alpha := fun _ => 0
    solver := { mat := fun _ _ => 0, info := true }
    update := false }

/-- C7 counterexample: the length-3 array [5, 6, 7] does not match
param_dim = 2, yet set_params does not fail and does not leave the
hyperparameters unchanged: it copies the first two entries, the vector
becomes [5, 6], and the cache is set Dirty. -/
theorem set_params_no_validation_counterexample :
    (([5, 6, 7] : List ℚ).length ≠ gpParams2.covf.param_dim) ∧
      (set_params gpParams2 [5, 6, 7]).covf.loghyper = [5, 6] ∧
      gpParams2.covf.loghyper ≠ [5, 6] ∧
      (set_params gpParams2 [5, 6, 7]).update = true := by decide

/-- C7 amended: set_params reads exactly param_dim entries from the raw
array — no length is available to validate — always hands set_loghyper a
vector of exactly param_dim entries, so the update always succeeds and is
applied, and it unconditionally sets the cache Dirty. -/
theorem set_params_always_applies (gp : GaussianProcess) (p : List ℚ) :
    (set_params gp p).covf.loghyper = readArray gp.covf.param_dim p ∧
      (gp.covf.set_loghyper (readArray gp.covf.param_dim p)).1 = true ∧
      (set_params gp p).update = true := by
  have hlen : (readArray gp.covf.param_dim p).length = gp.covf.param_dim := by
    unfold readArray
    rw [List.length_map, List.length_range]
  refine ⟨?_, ?_, rfl⟩
  · show ((gp.covf.set_loghyper (readArray gp.covf.param_dim p)).2).loghyper = _
    unfold CovarianceFunction.set_loghyper
    rw [if_pos hlen]
  · unfold CovarianceFunction.set_loghyper
    rw [if_pos hlen]

/-- C8: during a rebuild the n×n Gram matrix is filled through one kernel
call per pair in gramCalls n, every such pair (j, i) lies in the lower
triangle (i ≤ j < n), there are exactly n(n+1)/2 of them rather than n²,
and each lower-triangle entry of the built matrix K equals
get(sample_row, sample_column). -/
theorem gram_lower_triangle (cf : CovarianceFunction) (ss : List Pattern) :
    ((gramCalls ss.length).length = ss.length * (ss.length + 1) / 2) ∧
      (∀ p, p ∈ gramCalls ss.length → p.2 ≤ p.1 ∧ p.1 < ss.length) ∧
      (∀ i j, j ≤ i → i < ss.length →
        gramLower cf ss i j = cf.get (sampleX ss i) (sampleX ss j)) := by
  refine ⟨gramCalls_length ss.length, ?_, ?_⟩
  · intro p hp
    exact (gramCalls_mem ss.length p).mp hp
  · intro i j hj hi
    exact gramLower_entry cf ss i j hj hi

/-- Concrete three-sample set and kernel for the C8 witness. -/
def cfGram : CovarianceFunction :=
  { input_dim := 1, param_dim := 1, loghyper := [0]
    getFn := fun _ a b => a.headD 0 + b.headD 0 }

def ssGram : List Pattern :=
  [{ x := [0], y := 0 }, { x := [1], y := 0 }, { x := [2], y := 0 }]

theorem gram_lower_triangle_witness :
    ((2, 1) ∈ gramCalls ssGram.length) ∧
      ((2, 1).2 ≤ (2, 1).1 ∧ (2, 1).1 < ssGram.length) ∧
      gramLower cfGram ssGram 2 1 = cfGram.get (sampleX ssGram 2) (sampleX ssGram 1) ∧
      (gramCalls ssGram.length).length = ssGram.length * (ssGram.length + 1) / 2 := by
  have h := gram_lower_triangle cfGram ssGram
  exact ⟨by decide, h.2.1 (2, 1) (by decide), h.2.2 2 1 (by decide) (by decide), h.1⟩

lemma predict_state_sampleset (sq : ℚ → ℚ) (gp : GaussianProcess) (x : List ℚ)
    (cv : Bool) : (gpPredict sq gp x cv).state.sampleset = gp.sampleset := by
  by_cases h : gp.sampleset.length = 0
  · rw [gpPredict_empty sq gp x cv h]
  · rw [gpPredict_state sq gp x cv h, rebuild_sampleset]

lemma applyOp_sampleset_le (sq : ℚ → ℚ) (gp : GaussianProcess) (op : Op)
    (h : op.isCore = true) :
    gp.sampleset.length ≤ (applyOp sq gp op).sampleset.length := by
  cases op with
  | addPattern x y =>
    show gp.sampleset.length ≤
      (gp.sampleset ++ [({ x := readArray gp.input_dim x, y := y } : Pattern)]).length
    rw [List.length_append]
    omega
  | setParams p => exact le_refl _
  | predictOp x cv =>
    show gp.sampleset.length ≤ (gpPredict sq gp x cv).state.sampleset.length
    rw [predict_state_sampleset]
  | getSamplesetSize => exact le_refl _
  | getParamDim => exact le_refl _
  | clearSampleset => exact Bool.noConfusion h

lemma foldl_applyOp_sampleset_le (sq : ℚ → ℚ) :
    ∀ (ops : List Op) (gp : GaussianProcess), (∀ op ∈ ops, op.isCore = true) →
      gp.sampleset.length ≤ (ops.foldl (applyOp sq) gp).sampleset.length := by
  intro ops
  induction ops with
  | nil =>
    intro gp _
    exact le_refl _
  | cons op rest ih =>
    intro gp hall
    have h1 : gp.sampleset.length ≤ (applyOp sq gp op).sampleset.length :=
      applyOp_sampleset_le sq gp op (hall op (List.mem_cons_self op rest))
    exact h1.trans (ih (applyOp sq gp op) (fun o ho => hall o (List.mem_cons_of_mem op ho)))

/-- C9 amended: over the core-contract operations (add_pattern, set_params,
predict and the read-only accessors) the SampleSet size never decreases —
over any sequence of them — and add_pattern is the only one that mutates
the SampleSet; the engine however also exposes clear_sampleset, which
removes every sample. -/
theorem sampleset_monotone_core (sq : ℚ → ℚ) (gp : GaussianProcess) :
    (∀ op : Op, op.isCore = true →
        gp.sampleset.length ≤ (applyOp sq gp op).sampleset.length) ∧
      (∀ op : Op, op.isCore = true → (∀ x y, op ≠ Op.addPattern x y) →
        (applyOp sq gp op).sampleset = gp.sampleset) ∧
      (∀ ops : List Op, (∀ op ∈ ops, op.isCore = true) →
        gp.sampleset.length ≤ (ops.foldl (applyOp sq) gp).sampleset.length) := by
  refine ⟨fun op h => applyOp_sampleset_le sq gp op h, ?_, fun ops h => foldl_applyOp_sampleset_le sq ops gp h⟩
  intro op hcore hnot
  cases op with
  | addPattern x y => exact absurd rfl (hnot x y)
  | setParams p => rfl
  | predictOp x cv =>
    show (gpPredict sq gp x cv).state.sampleset = gp.sampleset
    rw [predict_state_sampleset]
  | getSamplesetSize => rfl
  | getParamDim => rfl
  | clearSampleset => exact Bool.noConfusion hcore

/-- Engine with one sample for the C9 counterexample and witness. -/
def gpOneSample : GaussianProcess :=
  { input_dim := 1
    covf := { input_dim := 1, param_dim := 1, loghyper := [0], getFn := fun _ _ _ => 0 }
    sampleset := [{ x := [0], y := 1 }]
    alpha := fun _ => 0
    solver := { mat := fun _ _ => 0, info := true }
    update := false }

/-- C9 counterexample: clear_sampleset, a public engine operation, removes
samples: on a one-sample engine the SampleSet drops from size 1 to size 0,
so add_pattern is not the only mutation of the SampleSet and the size does
decrease under this operation. -/
theorem clear_sampleset_removes_counterexample :
    gpOneSample.sampleset.length = 1 ∧
      (applyOp (fun q => q) gpOneSample Op.clearSampleset).sampleset.length = 0 ∧
      gpOneSample.sampleset ≠ (applyOp (fun q => q) gpOneSample Op.clearSampleset).sampleset := by
  refine ⟨rfl, rfl, ?_⟩
  show gpOneSample.sampleset ≠ []
  exact List.cons_ne_nil _ _

theorem sampleset_monotone_core_witness :
    ((Op.addPattern [3] 7).isCore = true) ∧
      gpOneSample.sampleset.length ≤
        (([Op.addPattern [3] 7, Op.setParams [2], Op.predictOp [0] true]).foldl
          (applyOp (fun q => q)) gpOneSample).sampleset.length := by
  have h := sampleset_monotone_core (fun q => q) gpOneSample
  exact ⟨rfl, h.2.2 [Op.addPattern [3] 7, Op.setParams [2], Op.predictOp [0] true] (by decide)⟩
